import Mathlib

/-!
Verification of the geohash codec (`pkg/utils/geohash.go`).

The Go source works on `float64`.  Every arithmetic operation the codec
performs on coordinates (initialising the ranges at ±90/±180, taking the
midpoint of a range, comparing a coordinate against a midpoint) is exact in
binary floating point for the depths reached (at most 30 halvings of spans
180 and 360, all bounds dyadic rationals with small numerators), so the
bisection arithmetic is modelled faithfully over `ℚ`.  The distance
computation uses transcendental functions and is modelled over `ℝ`.

Go strings are sequences of bytes; `for _, c := range s` iterates the
decoded runes, so a Go string (assumed valid UTF-8, which Lean's `Char`
guarantees) is modelled as a `List Char`.  The conversion `byte(char)` in
the Go source truncates the rune to its low 8 bits, modelled as
`c.toNat % 256`; the byte length `len(s)` is modelled by summing the UTF-8
sizes of the characters.
-/

namespace Geohash

/-- The base32 alphabet, `base32` in the source. -/
def base32 : List Char := "0123456789bcdefghjkmnpqrstuvwxyz".toList

/-- The error values of the package: the three named validation errors of
`Encode` and the two `errors.New` values produced by `Decode` /
`BoundingBox` / `Neighbors`. -/
inductive GeoError where
  | invalidLatitude
  | invalidLongitude
  | invalidPrecision
  | emptyGeohash
  | invalidCharacter
  deriving DecidableEq, Repr

/-- The bisection state shared by encoding and decoding: the current
latitude and longitude ranges and the `even` alternation flag. -/
structure GeoState where
  latLo : ℚ
  latHi : ℚ
  lonLo : ℚ
  lonHi : ℚ
  even : Bool
  deriving DecidableEq, Repr

/-- The initial state of every bisection walk:
`latRange = [-90,90]`, `lonRange = [-180,180]`, `even = true`. -/
def initState : GeoState :=
  { latLo := -90, latHi := 90, lonLo := -180, lonHi := 180, even := true }

/-- One bit of the encode loop body in `Encode`: test the active coordinate
against the midpoint of the active range, narrow the range, flip the
alternation flag, and report whether the emitted bit is 1. -/
def encBit (lat lon : ℚ) (s : GeoState) : Bool × GeoState :=
  if s.even then
    let mid := (s.lonLo + s.lonHi) / 2
    if lon > mid then (true, { s with lonLo := mid, even := false })
    else (false, { s with lonHi := mid, even := false })
  else
    let mid := (s.latLo + s.latHi) / 2
    if lat > mid then (true, { s with latLo := mid, even := true })
    else (false, { s with latHi := mid, even := true })

/-- The inner `for bits < 5` loop of `Encode`, with `n` bits remaining:
when the emitted bit is 1 the accumulator receives `1 << (4 - bits)`,
which is `1 <<< n` at fuel `n+1`. -/
def encBitsLoop (lat lon : ℚ) : Nat → Nat → GeoState → Nat × GeoState
  | 0, ch, s => (ch, s)
  | n + 1, ch, s =>
    let r := encBit lat lon s
    encBitsLoop lat lon n (if r.1 then ch ||| (1 <<< n) else ch) r.2

/-- The outer character loop of `Encode`: emit `p` characters, each the
base32 symbol of a fresh 5-bit accumulator. -/
def encodeChars (lat lon : ℚ) : Nat → GeoState → List Char
  | 0, _ => []
  | p + 1, s =>
    let r := encBitsLoop lat lon 5 0 s
    base32.getD r.1 ' ' :: encodeChars lat lon p r.2

/-- `Encode` from the source: validation of latitude, longitude and
precision in that order, then the bit-interleaving walk. -/
def Encode (lat lon : ℚ) (precision : ℤ) : Except GeoError (List Char) :=
  if lat < -90 ∨ lat > 90 then .error .invalidLatitude
  else if lon < -180 ∨ lon > 180 then .error .invalidLongitude
  else if precision < 1 ∨ precision > 12 then .error .invalidPrecision
  else .ok (encodeChars lat lon precision.toNat initState)

/-- `indexInBase32` from the source: linear scan of the alphabet bytes for
the given byte, `-1` when absent. -/
def indexInBase32 (b : Nat) : Int :=
  match base32.findIdx? (fun c => c.toNat == b) with
  | some i => (i : Int)
  | none => -1

/-- One bit of the decode walk shared by `Decode` and `BoundingBox`:
for bit 1 the active range's lower bound becomes the midpoint, for bit 0
the upper bound does; the alternation flag flips. -/
def decBit (bit : Bool) (s : GeoState) : GeoState :=
  if s.even then
    let mid := (s.lonLo + s.lonHi) / 2
    if bit then { s with lonLo := mid, even := false }
    else { s with lonHi := mid, even := false }
  else
    let mid := (s.latLo + s.latHi) / 2
    if bit then { s with latLo := mid, even := true }
    else { s with latHi := mid, even := true }

/-- The inner `for i := 4; i >= 0; i--` loop of the decode walk: at fuel
`i+1` the bit `(idx >> i) & 1` is consumed. -/
def decCharLoop (idx : Nat) : Nat → GeoState → GeoState
  | 0, s => s
  | i + 1, s => decCharLoop idx i (decBit (idx.testBit i) s)

/-- The per-character loop shared by `Decode` and `BoundingBox`: look up
each character's byte in the alphabet (`byte(char)` truncates the rune to
its low 8 bits) and walk its five bits; `none` at the first character whose
byte is not in the alphabet. -/
def scanGeohash : List Char → GeoState → Option GeoState
  | [], s => some s
  | c :: rest, s =>
    let idx := indexInBase32 (c.toNat % 256)
    if idx = -1 then none
    else scanGeohash rest (decCharLoop idx.toNat 5 s)

/-- `Decode` from the source: empty check, bisection walk, then the
midpoints of the final ranges. -/
def Decode (geohash : List Char) : Except GeoError (ℚ × ℚ) :=
  if geohash = [] then .error .emptyGeohash
  else
    match scanGeohash geohash initState with
    | none => .error .invalidCharacter
    | some s => .ok ((s.latLo + s.latHi) / 2, (s.lonLo + s.lonHi) / 2)

/-- `BoundingBox` from the source: same walk as `Decode` but returning the
final ranges `(minLat, maxLat, minLon, maxLon)` themselves. -/
def BoundingBox (geohash : List Char) : Except GeoError (ℚ × ℚ × ℚ × ℚ) :=
  if geohash = [] then .error .emptyGeohash
  else
    match scanGeohash geohash initState with
    | none => .error .invalidCharacter
    | some s => .ok (s.latLo, s.latHi, s.lonLo, s.lonHi)

/-- Go's `len` on a string counts bytes: the sum of the UTF-8 sizes of the
characters. -/
def goLen (geohash : List Char) : Nat := (geohash.map Char.utf8Size).sum

/-- `Neighbors` from the source: decode the center, derive the cell size
from the bounding box, and re-encode the eight shifted points at the same
(byte-length) precision in source order N, S, E, W, NE, NW, SE, SW,
keeping only the successes. -/
def Neighbors (geohash : List Char) : Except GeoError (List (List Char)) :=
  if geohash = [] then .error .emptyGeohash
  else
    match Decode geohash with
    | .error e => .error e
    | .ok (lat, lon) =>
      match BoundingBox geohash with
      | .error e => .error e
      | .ok (minLat, maxLat, minLon, maxLon) =>
        let latStep := maxLat - minLat
        let lonStep := maxLon - minLon
        let precision : ℤ := (goLen geohash : ℤ)
        .ok (([Encode (lat + latStep) lon precision,
               Encode (lat - latStep) lon precision,
               Encode lat (lon + lonStep) precision,
               Encode lat (lon - lonStep) precision,
               Encode (lat + latStep) (lon + lonStep) precision,
               Encode (lat + latStep) (lon - lonStep) precision,
               Encode (lat - latStep) (lon + lonStep) precision,
               Encode (lat - latStep) (lon - lonStep) precision]).filterMap
              Except.toOption)

/-- `degToRad` from the source. -/
noncomputable def degToRad (deg : ℝ) : ℝ := deg * Real.pi / 180

/-- Go's `math.Atan2` on (finite, non-signed-zero) real arguments. -/
noncomputable def atan2 (y x : ℝ) : ℝ :=
  if 0 < x then Real.arctan (y / x)
  else if x < 0 then
    (if 0 ≤ y then Real.arctan (y / x) + Real.pi
     else Real.arctan (y / x) - Real.pi)
  else if 0 < y then Real.pi / 2
  else if y < 0 then -(Real.pi / 2)
  else 0

/-- `haversineDistance` from the source, on a sphere of radius 6371 km,
idealised over ℝ: the exact transcendental functions replace the float64
approximations, and `Real.sqrt` is total (the square root of a negative
number is 0).  In exact arithmetic the intermediate `a` never exceeds 1,
but in the float64 program rounding can push `a` one ulp above 1 when the
two decoded centers are antipodal, in which case `math.Sqrt(1-a)` is NaN
and the NaN propagates to the result; this model does not capture that
path, so properties of the result's value (such as its sign) that hinge
on float64 rounding are outside the model. -/
noncomputable def haversineDistance (lat1 lon1 lat2 lon2 : ℝ) : ℝ :=
  let earthRadiusKm : ℝ := 6371
  let dLat := degToRad (lat2 - lat1)
  let dLon := degToRad (lon2 - lon1)
  let lat1Rad := degToRad lat1
  let lat2Rad := degToRad lat2
  let a := Real.sin (dLat / 2) * Real.sin (dLat / 2) +
    Real.sin (dLon / 2) * Real.sin (dLon / 2) * Real.cos lat1Rad * Real.cos lat2Rad
  let c := 2 * atan2 (Real.sqrt a) (Real.sqrt (1 - a))
  earthRadiusKm * c

/-- `Distance` from the source: decode both cells (propagating the first
decode error) and apply the haversine formula to the centers.  The
haversine step inherits the ℝ idealisation of `haversineDistance`. -/
noncomputable def Distance (geohash1 geohash2 : List Char) :
    Except GeoError ℝ :=
  match Decode geohash1 with
  | .error e => .error e
  | .ok (lat1, lon1) =>
    match Decode geohash2 with
    | .error e => .error e
    | .ok (lat2, lon2) => .ok (haversineDistance lat1 lon1 lat2 lon2)

/-- The fixed `(precision, sizeKm)` table of `PrecisionForRadius`. -/
def precisionTable : List (ℤ × ℚ) :=
  [(1, 5000), (2, 1250), (3, 156), (4, 39), (5, 49/10), (6, 12/10),
   (7, 15/100), (8, 38/1000), (9, 47/10000), (10, 12/10000),
   (11, 15/100000), (12, 37/1000000)]

/-- `PrecisionForRadius` from the source: first table entry (in order)
with `radiusKm >= sizeKm`, else 12. -/
def PrecisionForRadius (radiusKm : ℚ) : ℤ :=
  match precisionTable.find? (fun p => decide (p.2 ≤ radiusKm)) with
  | some p => p.1
  | none => 12

end Geohash

namespace Geohash

/-! ### Basic facts about the alphabet -/

theorem base32_length : base32.length = 32 := by decide

theorem base32_idx_ne : ∀ c ∈ base32, indexInBase32 (c.toNat % 256) ≠ -1 := by
  decide

theorem base32_utf8Size : ∀ c ∈ base32, c.utf8Size = 1 := by decide

theorem goLen_eq_length (gs : List Char) (h : ∀ c ∈ gs, c ∈ base32) :
    goLen gs = gs.length := by
  induction gs with
  | nil => rfl
  | cons c rest ih =>
    have hc : c.utf8Size = 1 := base32_utf8Size c (h c (by simp))
    have hr := ih (fun x hx => h x (by simp [hx]))
    simp [goLen] at hr ⊢
    omega

/-! ### The bisection invariant

After `k` bits of any decode walk that started from `initState`, the
latitude range has been halved `k / 2` times, the longitude range
`(k + 1) / 2` times, and the alternation flag records the parity of `k`. -/

def Inv (k : Nat) (s : GeoState) : Prop :=
  s.latHi - s.latLo = 180 / 2 ^ (k / 2) ∧
  s.lonHi - s.lonLo = 360 / 2 ^ ((k + 1) / 2) ∧
  (s.even = true ↔ k % 2 = 0)

theorem inv_init : Inv 0 initState := by
  refine ⟨?_, ?_, by simp [initState]⟩ <;> norm_num [initState]

theorem decBit_inv {k : Nat} {s : GeoState} (b : Bool) (h : Inv k s) :
    Inv (k + 1) (decBit b s) := by
  obtain ⟨hlat, hlon, heven⟩ := h
  cases hsev : s.even with
  | true =>
    have hk : k % 2 = 0 := heven.mp hsev
    have e1 : (k + 1) / 2 = k / 2 := by omega
    have e2 : (k + 1 + 1) / 2 = (k + 1) / 2 + 1 := by omega
    have hspan : (360 : ℚ) / 2 ^ ((k + 1 + 1) / 2) =
        360 / 2 ^ ((k + 1) / 2) / 2 := by
      rw [e2, pow_succ]; ring
    cases b <;>
      refine ⟨by simp [decBit, hsev, e1, hlat], ?_, by simp [decBit, hsev]; omega⟩ <;>
      · simp [decBit, hsev, hspan]
        linarith [hlon]
  | false =>
    have hk : k % 2 = 1 := by
      rcases Nat.mod_two_eq_zero_or_one k with h0 | h1
      · exact absurd (heven.mpr h0) (by simp [hsev])
      · exact h1
    have e1 : (k + 1) / 2 = k / 2 + 1 := by omega
    have e2 : (k + 1 + 1) / 2 = (k + 1) / 2 := by omega
    have hspan : (180 : ℚ) / 2 ^ ((k + 1) / 2) = 180 / 2 ^ (k / 2) / 2 := by
      rw [e1, pow_succ]; ring
    cases b <;>
      refine ⟨?_, by simp [decBit, hsev, e2, hlon], by simp [decBit, hsev]; omega⟩ <;>
      · simp [decBit, hsev, hspan]
        linarith [hlat]

theorem decCharLoop_inv (idx : Nat) :
    ∀ (n k : Nat) (s : GeoState), Inv k s → Inv (k + n) (decCharLoop idx n s)
  | 0, k, s, h => h
  | n + 1, k, s, h => by
    have h1 := decBit_inv (idx.testBit n) h
    have h2 := decCharLoop_inv idx n (k + 1) _ h1
    simpa [decCharLoop, Nat.add_comm, Nat.add_left_comm] using h2

theorem scanGeohash_inv :
    ∀ (gs : List Char) (s : GeoState) (k : Nat) (st : GeoState),
      Inv k s → scanGeohash gs s = some st → Inv (k + 5 * gs.length) st
  | [], s, k, st, h, hscan => by
    simp [scanGeohash] at hscan
    simpa [← hscan] using h
  | c :: rest, s, k, st, h, hscan => by
    simp only [scanGeohash] at hscan
    by_cases hidx : indexInBase32 (c.toNat % 256) = -1
    · simp [hidx] at hscan
    · rw [if_neg hidx] at hscan
      have h5 := decCharLoop_inv (indexInBase32 (c.toNat % 256)).toNat 5 k s h
      have hrec := scanGeohash_inv rest _ (k + 5) st h5 hscan
      have harith : k + 5 * (c :: rest).length = k + 5 + 5 * rest.length := by
        simp [List.length_cons]; omega
      rw [harith]
      exact hrec

theorem scanGeohash_total :
    ∀ (gs : List Char) (s : GeoState),
      (∀ c ∈ gs, indexInBase32 (c.toNat % 256) ≠ -1) →
      ∃ st, scanGeohash gs s = some st
  | [], s, _ => ⟨s, rfl⟩
  | c :: rest, s, h => by
    have hc := h c (by simp)
    have hrest := scanGeohash_total rest
      (decCharLoop (indexInBase32 (c.toNat % 256)).toNat 5 s)
      (fun x hx => h x (by simp [hx]))
    simpa [scanGeohash, hc] using hrest

end Geohash

namespace Geohash

/-! ### Basic facts about `Encode` -/

theorem encodeChars_length (lat lon : ℚ) :
    ∀ (p : Nat) (s : GeoState), (encodeChars lat lon p s).length = p
  | 0, _ => rfl
  | p + 1, s => by
    simp [encodeChars, encodeChars_length lat lon p]

theorem encBitsLoop_lt (lat lon : ℚ) :
    ∀ (n ch : Nat) (s : GeoState), n ≤ 5 → ch < 32 →
      (encBitsLoop lat lon n ch s).1 < 32
  | 0, ch, s, _, hch => hch
  | n + 1, ch, s, hn, hch => by
    have hn4 : n ≤ 4 := by omega
    have hstep : (if (encBit lat lon s).1 then ch ||| (1 <<< n) else ch) < 32 := by
      by_cases hb : (encBit lat lon s).1
      · have h1 : (1 <<< n) < 32 := by
          have : (1 <<< n) = 2 ^ n := by simp [Nat.shiftLeft_eq]
          rw [this]
          calc 2 ^ n ≤ 2 ^ 4 := Nat.pow_le_pow_right (by norm_num) hn4
          _ < 32 := by norm_num
        have := Nat.or_lt_two_pow (n := 5) (by simpa using hch) (by simpa using h1)
        simpa using if_pos hb ▸ this
      · simpa [hb] using hch
    exact encBitsLoop_lt lat lon n _ _ (by omega) hstep

theorem encodeChars_mem (lat lon : ℚ) :
    ∀ (p : Nat) (s : GeoState) (c : Char),
      c ∈ encodeChars lat lon p s → c ∈ base32
  | 0, _, c, hc => by simp [encodeChars] at hc
  | p + 1, s, c, hc => by
    simp only [encodeChars, List.mem_cons] at hc
    rcases hc with hc | hc
    · have hlt : (encBitsLoop lat lon 5 0 s).1 < 32 :=
        encBitsLoop_lt lat lon 5 0 s (by norm_num) (by norm_num)
      have hlen : (encBitsLoop lat lon 5 0 s).1 < base32.length := by
        rw [base32_length]; exact hlt
      have : base32.getD (encBitsLoop lat lon 5 0 s).1 ' ' =
          base32.get ⟨(encBitsLoop lat lon 5 0 s).1, hlen⟩ := by
        simp [List.getD_eq_getElem?_getD, List.getElem?_eq_getElem hlen]
      rw [hc, this]
      exact base32.get_mem _ _
    · exact encodeChars_mem lat lon p _ c hc

theorem encode_ok {lat lon : ℚ} {p : ℤ}
    (h1 : -90 ≤ lat) (h2 : lat ≤ 90) (h3 : -180 ≤ lon) (h4 : lon ≤ 180)
    (h5 : 1 ≤ p) (h6 : p ≤ 12) :
    Encode lat lon p = .ok (encodeChars lat lon p.toNat initState) := by
  unfold Encode
  rw [if_neg (by push_neg; constructor <;> linarith),
    if_neg (by push_neg; constructor <;> linarith),
    if_neg (by push_neg; constructor <;> omega)]

theorem encode_ok_shape {lat lon : ℚ} {p : ℤ} {gs : List Char}
    (h : Encode lat lon p = .ok gs) :
    1 ≤ p ∧ p ≤ 12 ∧ gs = encodeChars lat lon p.toNat initState := by
  unfold Encode at h
  by_cases c1 : lat < -90 ∨ lat > 90
  · simp [c1] at h
  by_cases c2 : lon < -180 ∨ lon > 180
  · simp [c1, c2] at h
  by_cases c3 : p < 1 ∨ p > 12
  · simp [c1, c2, c3] at h
  push_neg at c3
  refine ⟨by omega, by omega, ?_⟩
  simp [c1, c2, not_or.mpr (by constructor <;> omega : ¬(p < 1) ∧ ¬(p > 12))] at h
  exact h.symm

/-! ### Success and containment facts for `Decode` and `BoundingBox` -/

theorem scan_of_alpha (gs : List Char) (halpha : ∀ c ∈ gs, c ∈ base32) :
    ∃ st, scanGeohash gs initState = some st ∧ Inv (5 * gs.length) st := by
  obtain ⟨st, hst⟩ := scanGeohash_total gs initState
    (fun c hc => base32_idx_ne c (halpha c hc))
  exact ⟨st, hst, by simpa using scanGeohash_inv gs initState 0 st inv_init hst⟩

theorem inv_lt {k : Nat} {s : GeoState} (h : Inv k s) :
    s.latLo < s.latHi ∧ s.lonLo < s.lonHi := by
  obtain ⟨hlat, hlon, -⟩ := h
  constructor
  · have : (0 : ℚ) < 180 / 2 ^ (k / 2) := by positivity
    linarith [hlat]
  · have : (0 : ℚ) < 360 / 2 ^ ((k + 1) / 2) := by positivity
    linarith [hlon]

theorem decode_bbox_ok (gs : List Char) (hne : gs ≠ [])
    (halpha : ∀ c ∈ gs, c ∈ base32) :
    ∃ st, scanGeohash gs initState = some st ∧
      Decode gs = .ok ((st.latLo + st.latHi) / 2, (st.lonLo + st.lonHi) / 2) ∧
      BoundingBox gs = .ok (st.latLo, st.latHi, st.lonLo, st.lonHi) ∧
      Inv (5 * gs.length) st := by
  obtain ⟨st, hst, hinv⟩ := scan_of_alpha gs halpha
  exact ⟨st, hst, by simp [Decode, hne, hst], by simp [BoundingBox, hne, hst], hinv⟩

end Geohash

namespace Geohash

/-- C2: for every non-empty cell string over the 32-symbol alphabet,
`Decode` succeeds and returns a point inside the rectangle returned by
`BoundingBox`; consequently for all valid `(lat, lon, precision)` the
decode of the encoding lies within the bounding box of the encoding. -/
theorem C2_decode_within_bbox :
    (∀ gs : List Char, gs ≠ [] → (∀ c ∈ gs, c ∈ base32) →
      ∃ lat lon minLat maxLat minLon maxLon,
        Decode gs = .ok (lat, lon) ∧
        BoundingBox gs = .ok (minLat, maxLat, minLon, maxLon) ∧
        minLat ≤ lat ∧ lat ≤ maxLat ∧ minLon ≤ lon ∧ lon ≤ maxLon) ∧
    (∀ (lat lon : ℚ) (p : ℤ), -90 ≤ lat → lat ≤ 90 → -180 ≤ lon →
      lon ≤ 180 → 1 ≤ p → p ≤ 12 →
      ∃ gs dlat dlon minLat maxLat minLon maxLon,
        Encode lat lon p = .ok gs ∧
        Decode gs = .ok (dlat, dlon) ∧
        BoundingBox gs = .ok (minLat, maxLat, minLon, maxLon) ∧
        minLat ≤ dlat ∧ dlat ≤ maxLat ∧ minLon ≤ dlon ∧ dlon ≤ maxLon) := by
  have main : ∀ gs : List Char, gs ≠ [] → (∀ c ∈ gs, c ∈ base32) →
      ∃ lat lon minLat maxLat minLon maxLon,
        Decode gs = .ok (lat, lon) ∧
        BoundingBox gs = .ok (minLat, maxLat, minLon, maxLon) ∧
        minLat ≤ lat ∧ lat ≤ maxLat ∧ minLon ≤ lon ∧ lon ≤ maxLon := by
    intro gs hne halpha
    obtain ⟨st, -, hdec, hbox, hinv⟩ := decode_bbox_ok gs hne halpha
    obtain ⟨hlt1, hlt2⟩ := inv_lt hinv
    exact ⟨_, _, _, _, _, _, hdec, hbox,
      by linarith, by linarith, by linarith, by linarith⟩
  refine ⟨main, fun lat lon p h1 h2 h3 h4 h5 h6 => ?_⟩
  have henc := encode_ok h1 h2 h3 h4 h5 h6
  have hne : encodeChars lat lon p.toNat initState ≠ [] := by
    have := encodeChars_length lat lon p.toNat initState
    intro hcon
    rw [hcon] at this
    simp at this
    omega
  obtain ⟨dlat, dlon, a, b, c, d, hdec, hbox, w1, w2, w3, w4⟩ :=
    main _ hne (fun c hc => encodeChars_mem lat lon _ _ c hc)
  exact ⟨_, dlat, dlon, a, b, c, d, henc, hdec, hbox, w1, w2, w3, w4⟩

/-- Witness for C2 at the concrete cell `"0"`. -/
theorem C2_decode_within_bbox_witness :
    ∃ lat lon minLat maxLat minLon maxLon,
      Decode ['0'] = .ok (lat, lon) ∧
      BoundingBox ['0'] = .ok (minLat, maxLat, minLon, maxLon) ∧
      minLat ≤ lat ∧ lat ≤ maxLat ∧ minLon ≤ lon ∧ lon ≤ maxLon :=
  C2_decode_within_bbox.1 ['0'] (by decide) (by decide)

/-- C3: `Encode` validates latitude, then longitude, then precision, in
that order, returning the corresponding error exactly when the respective
argument is out of range, and succeeds otherwise; including the concrete
boundary cases of the spec. -/
theorem C3_encode_validation :
    (∀ (lat lon : ℚ) (p : ℤ),
      (¬(-90 ≤ lat ∧ lat ≤ 90) →
        Encode lat lon p = .error .invalidLatitude) ∧
      ((-90 ≤ lat ∧ lat ≤ 90) → ¬(-180 ≤ lon ∧ lon ≤ 180) →
        Encode lat lon p = .error .invalidLongitude) ∧
      ((-90 ≤ lat ∧ lat ≤ 90) → (-180 ≤ lon ∧ lon ≤ 180) →
        ¬(1 ≤ p ∧ p ≤ 12) → Encode lat lon p = .error .invalidPrecision) ∧
      ((-90 ≤ lat ∧ lat ≤ 90) → (-180 ≤ lon ∧ lon ≤ 180) →
        (1 ≤ p ∧ p ≤ 12) → ∃ gs, Encode lat lon p = .ok gs)) ∧
    (∃ gs, Encode 90 180 8 = .ok gs) ∧
    (∃ gs, Encode (-90) (-180) 8 = .ok gs) ∧
    Encode (900001/10000) 0 8 = .error .invalidLatitude ∧
    Encode 0 0 0 = .error .invalidPrecision ∧
    Encode 0 0 13 = .error .invalidPrecision := by
  have hgen : ∀ (lat lon : ℚ) (p : ℤ),
      (¬(-90 ≤ lat ∧ lat ≤ 90) →
        Encode lat lon p = .error .invalidLatitude) ∧
      ((-90 ≤ lat ∧ lat ≤ 90) → ¬(-180 ≤ lon ∧ lon ≤ 180) →
        Encode lat lon p = .error .invalidLongitude) ∧
      ((-90 ≤ lat ∧ lat ≤ 90) → (-180 ≤ lon ∧ lon ≤ 180) →
        ¬(1 ≤ p ∧ p ≤ 12) → Encode lat lon p = .error .invalidPrecision) ∧
      ((-90 ≤ lat ∧ lat ≤ 90) → (-180 ≤ lon ∧ lon ≤ 180) →
        (1 ≤ p ∧ p ≤ 12) → ∃ gs, Encode lat lon p = .ok gs) := by
    intro lat lon p
    refine ⟨fun h => ?_, fun h1 h2 => ?_, fun h1 h2 h3 => ?_,
      fun h1 h2 h3 => ?_⟩
    · have : lat < -90 ∨ lat > 90 := by
        by_contra hcon
        push_neg at hcon
        exact h ⟨by linarith [hcon.1], by linarith [hcon.2]⟩
      simp [Encode, this]
    · have hl : ¬(lat < -90 ∨ lat > 90) := by push_neg; exact ⟨by linarith [h1.1], by linarith [h1.2]⟩
      have : lon < -180 ∨ lon > 180 := by
        by_contra hcon
        push_neg at hcon
        exact h2 ⟨by linarith [hcon.1], by linarith [hcon.2]⟩
      simp [Encode, hl, this]
    · have hl : ¬(lat < -90 ∨ lat > 90) := by push_neg; exact ⟨by linarith [h1.1], by linarith [h1.2]⟩
      have ho : ¬(lon < -180 ∨ lon > 180) := by push_neg; exact ⟨by linarith [h2.1], by linarith [h2.2]⟩
      have : p < 1 ∨ p > 12 := by omega
      simp [Encode, hl, ho, this]
    · exact ⟨_, encode_ok h1.1 h1.2 h2.1 h2.2 h3.1 h3.2⟩
  refine ⟨hgen, ⟨_, encode_ok (by norm_num) (by norm_num) (by norm_num)
      (by norm_num) (by norm_num) (by norm_num)⟩,
    ⟨_, encode_ok (by norm_num) (by norm_num) (by norm_num) (by norm_num)
      (by norm_num) (by norm_num)⟩, ?_, ?_, ?_⟩
  · exact (hgen (900001/10000) 0 8).1 (by norm_num)
  · exact (hgen 0 0 0).2.2.1 (by norm_num) (by norm_num) (by omega)
  · exact (hgen 0 0 13).2.2.1 (by norm_num) (by norm_num) (by omega)

/-- Witness for C3 at concrete out-of-range and in-range inputs. -/
theorem C3_encode_validation_witness :
    Encode 100 0 8 = .error .invalidLatitude ∧
    Encode 0 200 8 = .error .invalidLongitude ∧
    (∃ gs, Encode 0 0 8 = .ok gs) :=
  ⟨(C3_encode_validation.1 100 0 8).1 (by norm_num),
   (C3_encode_validation.1 0 200 8).2.1 (by norm_num) (by norm_num),
   (C3_encode_validation.1 0 0 8).2.2.2 (by norm_num) (by norm_num)
     (by norm_num)⟩

end Geohash

namespace Geohash

theorem scanGeohash_none_iff :
    ∀ (gs : List Char) (s : GeoState),
      scanGeohash gs s = none ↔ ∃ c ∈ gs, indexInBase32 (c.toNat % 256) = -1
  | [], s => by simp [scanGeohash]
  | c :: rest, s => by
    by_cases hidx : indexInBase32 (c.toNat % 256) = -1
    · simp [scanGeohash, hidx]
    · rw [show scanGeohash (c :: rest) s =
          scanGeohash rest (decCharLoop (indexInBase32 (c.toNat % 256)).toNat 5 s)
          from by simp [scanGeohash, hidx]]
      rw [scanGeohash_none_iff rest _]
      simp [hidx]

/-- C4 counterexample: the character U+0130 is not in the alphabet, yet
`Decode` accepts it: Go's `byte(char)` truncates the rune 0x130 to the
byte 0x30, which is the alphabet character `'0'`, so the one-character
string decodes successfully instead of failing with the
invalid-character error. -/
theorem C4_decode_counterexample :
    Char.ofNat 304 ∉ base32 ∧
    Decode [Char.ofNat 304] = .ok (-135/2, -315/2) := by
  constructor
  · decide
  · have h0 : indexInBase32 ((Char.ofNat 304).toNat % 256) = 0 := by decide
    have t0 : (indexInBase32 ((Char.ofNat 304).toNat % 256)).toNat = 0 := by decide
    simp only [Decode, scanGeohash, h0, t0, decCharLoop]
    norm_num [decBit, initState]

/-- C4 as amended: `Decode` fails with the empty-input error exactly on
the empty string; on a non-empty string it fails with the
invalid-character error exactly when some character's code point mod 256
(Go's `byte(char)` truncation) is not a byte of the alphabet, and succeeds
otherwise — in particular every string over the alphabet itself decodes
successfully. -/
theorem C4_decode_errors :
    (∀ gs : List Char, Decode gs = .error .emptyGeohash ↔ gs = []) ∧
    (∀ gs : List Char, gs ≠ [] →
      (Decode gs = .error .invalidCharacter ↔
        ∃ c ∈ gs, indexInBase32 (c.toNat % 256) = -1)) ∧
    (∀ gs : List Char, gs ≠ [] →
      (∀ c ∈ gs, indexInBase32 (c.toNat % 256) ≠ -1) →
      ∃ x, Decode gs = .ok x) ∧
    (∀ gs : List Char, gs ≠ [] → (∀ c ∈ gs, c ∈ base32) →
      ∃ x, Decode gs = .ok x) := by
  have hok : ∀ gs : List Char, gs ≠ [] →
      (∀ c ∈ gs, indexInBase32 (c.toNat % 256) ≠ -1) →
      ∃ x, Decode gs = .ok x := by
    intro gs hne h
    obtain ⟨st, hst⟩ := scanGeohash_total gs initState h
    exact ⟨((st.latLo + st.latHi) / 2, (st.lonLo + st.lonHi) / 2),
      by simp [Decode, hne, hst]⟩
  refine ⟨?_, ?_, hok, fun gs hne halpha =>
    hok gs hne (fun c hc => base32_idx_ne c (halpha c hc))⟩
  · intro gs
    constructor
    · intro h
      by_contra hne
      rcases hscan : scanGeohash gs initState with _ | st
      · simp [Decode, hne, hscan] at h
      · simp [Decode, hne, hscan] at h
    · intro h
      simp [Decode, h]
  · intro gs hne
    rw [← scanGeohash_none_iff gs initState]
    constructor
    · intro h
      rcases hscan : scanGeohash gs initState with _ | st
      · rfl
      · simp [Decode, hne, hscan] at h
    · intro h
      simp [Decode, hne, h]

/-- Witness for C4's amended claim at the concrete cells `"0"` (valid)
and `"!"` (invalid character). -/
theorem C4_decode_errors_witness :
    (∃ x, Decode ['0'] = .ok x) ∧
    (Decode ['!'] = .error .invalidCharacter ↔
      ∃ c ∈ ['!'], indexInBase32 (c.toNat % 256) = -1) :=
  ⟨C4_decode_errors.2.2.2 ['0'] (by decide) (by decide),
   C4_decode_errors.2.1 ['!'] (by decide)⟩

end Geohash

namespace Geohash

theorem pfr_cases (r : ℚ) : PrecisionForRadius r =
    (if 5000 ≤ r then 1 else if 1250 ≤ r then 2 else if 156 ≤ r then 3
     else if 39 ≤ r then 4 else if 49/10 ≤ r then 5 else if 12/10 ≤ r then 6
     else if 15/100 ≤ r then 7 else if 38/1000 ≤ r then 8
     else if 47/10000 ≤ r then 9 else if 12/10000 ≤ r then 10
     else if 15/100000 ≤ r then 11 else if 37/1000000 ≤ r then 12
     else 12) := by
  unfold PrecisionForRadius precisionTable
  by_cases h1 : (5000 : ℚ) ≤ r
  · rw [List.find?_cons_of_pos _ (by simpa using h1)]
    simp only [if_pos h1]
  rw [List.find?_cons_of_neg _ (by simpa using h1)]
  by_cases h2 : (1250 : ℚ) ≤ r
  · rw [List.find?_cons_of_pos _ (by simpa using h2)]
    simp only [if_neg h1, if_pos h2]
  rw [List.find?_cons_of_neg _ (by simpa using h2)]
  by_cases h3 : (156 : ℚ) ≤ r
  · rw [List.find?_cons_of_pos _ (by simpa using h3)]
    simp only [if_neg h1, if_neg h2, if_pos h3]
  rw [List.find?_cons_of_neg _ (by simpa using h3)]
  by_cases h4 : (39 : ℚ) ≤ r
  · rw [List.find?_cons_of_pos _ (by simpa using h4)]
    simp only [if_neg h1, if_neg h2, if_neg h3, if_pos h4]
  rw [List.find?_cons_of_neg _ (by simpa using h4)]
  by_cases h5 : (49/10 : ℚ) ≤ r
  · rw [List.find?_cons_of_pos _ (by simpa using h5)]
    simp only [if_neg h1, if_neg h2, if_neg h3, if_neg h4, if_pos h5]
  rw [List.find?_cons_of_neg _ (by simpa using h5)]
  by_cases h6 : (12/10 : ℚ) ≤ r
  · rw [List.find?_cons_of_pos _ (by simpa using h6)]
    simp only [if_neg h1, if_neg h2, if_neg h3, if_neg h4, if_neg h5, if_pos h6]
  rw [List.find?_cons_of_neg _ (by simpa using h6)]
  by_cases h7 : (15/100 : ℚ) ≤ r
  · rw [List.find?_cons_of_pos _ (by simpa using h7)]
    simp only [if_neg h1, if_neg h2, if_neg h3, if_neg h4, if_neg h5, if_neg h6, if_pos h7]
  rw [List.find?_cons_of_neg _ (by simpa using h7)]
  by_cases h8 : (38/1000 : ℚ) ≤ r
  · rw [List.find?_cons_of_pos _ (by simpa using h8)]
    simp only [if_neg h1, if_neg h2, if_neg h3, if_neg h4, if_neg h5, if_neg h6, if_neg h7, if_pos h8]
  rw [List.find?_cons_of_neg _ (by simpa using h8)]
  by_cases h9 : (47/10000 : ℚ) ≤ r
  · rw [List.find?_cons_of_pos _ (by simpa using h9)]
    simp only [if_neg h1, if_neg h2, if_neg h3, if_neg h4, if_neg h5, if_neg h6, if_neg h7, if_neg h8, if_pos h9]
  rw [List.find?_cons_of_neg _ (by simpa using h9)]
  by_cases h10 : (12/10000 : ℚ) ≤ r
  · rw [List.find?_cons_of_pos _ (by simpa using h10)]
    simp only [if_neg h1, if_neg h2, if_neg h3, if_neg h4, if_neg h5, if_neg h6, if_neg h7, if_neg h8, if_neg h9, if_pos h10]
  rw [List.find?_cons_of_neg _ (by simpa using h10)]
  by_cases h11 : (15/100000 : ℚ) ≤ r
  · rw [List.find?_cons_of_pos _ (by simpa using h11)]
    simp only [if_neg h1, if_neg h2, if_neg h3, if_neg h4, if_neg h5, if_neg h6, if_neg h7, if_neg h8, if_neg h9, if_neg h10, if_pos h11]
  rw [List.find?_cons_of_neg _ (by simpa using h11)]
  by_cases h12 : (37/1000000 : ℚ) ≤ r
  · rw [List.find?_cons_of_pos _ (by simpa using h12)]
    simp only [if_neg h1, if_neg h2, if_neg h3, if_neg h4, if_neg h5, if_neg h6, if_neg h7, if_neg h8, if_neg h9, if_neg h10, if_neg h11, if_pos h12]
  rw [List.find?_cons_of_neg _ (by simpa using h12)]
  simp only [List.find?_nil, if_neg h1, if_neg h2, if_neg h3, if_neg h4, if_neg h5, if_neg h6, if_neg h7, if_neg h8, if_neg h9, if_neg h10, if_neg h11, if_neg h12]


theorem pfr_bounds (r : ℚ) :
    1 ≤ PrecisionForRadius r ∧ PrecisionForRadius r ≤ 12 := by
  unfold PrecisionForRadius
  rcases hf : precisionTable.find? (fun p => decide (p.2 ≤ r)) with _ | p
  · rw [hf]
    norm_num
  · rw [hf]
    have hmem := List.mem_of_find?_eq_some hf
    have hall : ∀ q ∈ precisionTable, 1 ≤ q.1 ∧ q.1 ≤ 12 := by decide
    exact hall p hmem

/-- C6: `PrecisionForRadius` returns the precision of the first table
entry, scanning `(1,5000),(2,1250),…,(12,0.000037)` in increasing
precision order, whose size is at most the requested radius, and 12 when
no entry qualifies; the result is always in `[1, 12]`, and the spec's
endpoint values hold. -/
theorem C6_precision_for_radius :
    (∀ r : ℚ, PrecisionForRadius r =
      (if 5000 ≤ r then 1 else if 1250 ≤ r then 2 else if 156 ≤ r then 3
       else if 39 ≤ r then 4 else if 49/10 ≤ r then 5
       else if 12/10 ≤ r then 6 else if 15/100 ≤ r then 7
       else if 38/1000 ≤ r then 8 else if 47/10000 ≤ r then 9
       else if 12/10000 ≤ r then 10 else if 15/100000 ≤ r then 11
       else if 37/1000000 ≤ r then 12 else 12)) ∧
    (∀ r : ℚ, 1 ≤ PrecisionForRadius r ∧ PrecisionForRadius r ≤ 12) ∧
    PrecisionForRadius 5000 = 1 ∧
    PrecisionForRadius (1/100000) = 12 := by
  refine ⟨pfr_cases, pfr_bounds, ?_, ?_⟩
  · have h := pfr_cases 5000
    norm_num at h
    exact h
  · rw [pfr_cases (1/100000), if_neg (by norm_num : ¬ ((5000:ℚ) ≤ 1/100000)),
      if_neg (by norm_num : ¬ ((1250:ℚ) ≤ 1/100000)),
      if_neg (by norm_num : ¬ ((156:ℚ) ≤ 1/100000)),
      if_neg (by norm_num : ¬ ((39:ℚ) ≤ 1/100000)),
      if_neg (by norm_num : ¬ ((49/10:ℚ) ≤ 1/100000)),
      if_neg (by norm_num : ¬ ((12/10:ℚ) ≤ 1/100000)),
      if_neg (by norm_num : ¬ ((15/100:ℚ) ≤ 1/100000)),
      if_neg (by norm_num : ¬ ((38/1000:ℚ) ≤ 1/100000)),
      if_neg (by norm_num : ¬ ((47/10000:ℚ) ≤ 1/100000)),
      if_neg (by norm_num : ¬ ((12/10000:ℚ) ≤ 1/100000)),
      if_neg (by norm_num : ¬ ((15/100000:ℚ) ≤ 1/100000)),
      if_neg (by norm_num : ¬ ((37/1000000:ℚ) ≤ 1/100000))]

end Geohash

namespace Geohash

theorem neighbors_eq (gs : List Char) (hne : gs ≠ [])
    {lat lon a b c d : ℚ}
    (hdec : Decode gs = .ok (lat, lon))
    (hbox : BoundingBox gs = .ok (a, b, c, d)) :
    Neighbors gs =
      .ok (([Encode (lat + (b - a)) lon (goLen gs : ℤ),
             Encode (lat - (b - a)) lon (goLen gs : ℤ),
             Encode lat (lon + (d - c)) (goLen gs : ℤ),
             Encode lat (lon - (d - c)) (goLen gs : ℤ),
             Encode (lat + (b - a)) (lon + (d - c)) (goLen gs : ℤ),
             Encode (lat + (b - a)) (lon - (d - c)) (goLen gs : ℤ),
             Encode (lat - (b - a)) (lon + (d - c)) (goLen gs : ℤ),
             Encode (lat - (b - a)) (lon - (d - c)) (goLen gs : ℤ)]).filterMap
            Except.toOption) := by
  simp [Neighbors, hne, hdec, hbox]

/-- C5: for every valid (non-empty, alphabet-only) cell string,
`Neighbors` returns no error and at most 8 cells, each of the same length
as the input; directions whose shifted point fails to re-encode are
silently omitted (the result is exactly the successes among the eight
re-encodings). -/
theorem C5_neighbors :
    ∀ gs : List Char, gs ≠ [] → (∀ c ∈ gs, c ∈ base32) →
      ∃ l, Neighbors gs = .ok l ∧ l.length ≤ 8 ∧
        ∀ n ∈ l, n.length = gs.length := by
  intro gs hne halpha
  obtain ⟨st, -, hdec, hbox, -⟩ := decode_bbox_ok gs hne halpha
  refine ⟨_, neighbors_eq gs hne hdec hbox, ?_, ?_⟩
  · exact le_trans (List.length_filterMap_le _ _) (by simp)
  · intro n hn
    rw [List.mem_filterMap] at hn
    obtain ⟨cand, hcand, hopt⟩ := hn
    have hok : cand = .ok n := by
      cases cand with
      | error e => simp [Except.toOption] at hopt
      | ok v =>
        simp [Except.toOption] at hopt
        rw [hopt]
    have hlen : ∀ la lo : ℚ, Encode la lo (goLen gs : ℤ) = .ok n →
        n.length = gs.length := by
      intro la lo he
      obtain ⟨-, -, hshape⟩ := encode_ok_shape he
      rw [hshape, encodeChars_length]
      rw [show ((goLen gs : ℤ)).toNat = goLen gs from by simp]
      exact goLen_eq_length gs halpha
    simp only [List.mem_cons, List.not_mem_nil, or_false] at hcand
    rcases hcand with h | h | h | h | h | h | h | h <;>
      exact hlen _ _ (h.symm.trans hok)

/-- Witness for C5 at the concrete cell `"0"`. -/
theorem C5_neighbors_witness :
    ∃ l, Neighbors ['0'] = .ok l ∧ l.length ≤ 8 ∧
      ∀ n ∈ l, n.length = (['0'] : List Char).length :=
  C5_neighbors ['0'] (by decide) (by decide)

/-- C10: `Decode` and `BoundingBox` accept alphabet strings of any
positive length, including lengths above 12; for such over-long strings
`Neighbors` succeeds with an empty list, because every directional
re-encode fails the precision check. -/
theorem C10_no_length_cap :
    ∀ gs : List Char, (∀ c ∈ gs, c ∈ base32) → 1 ≤ gs.length →
      (∃ x, Decode gs = .ok x) ∧ (∃ y, BoundingBox gs = .ok y) ∧
      (12 < gs.length → Neighbors gs = .ok []) := by
  intro gs halpha hlen
  have hne : gs ≠ [] := by
    intro h
    rw [h] at hlen
    simp at hlen
  obtain ⟨st, -, hdec, hbox, -⟩ := decode_bbox_ok gs hne halpha
  refine ⟨⟨_, hdec⟩, ⟨_, hbox⟩, fun h13 => ?_⟩
  rw [neighbors_eq gs hne hdec hbox]
  have hp : (12 : ℤ) < (goLen gs : ℤ) := by
    rw [goLen_eq_length gs halpha]
    exact_mod_cast h13
  have herr : ∀ la lo : ℚ, ∃ e, Encode la lo (goLen gs : ℤ) = .error e := by
    intro la lo
    unfold Encode
    by_cases c1 : la < -90 ∨ la > 90
    · exact ⟨_, by rw [if_pos c1]⟩
    by_cases c2 : lo < -180 ∨ lo > 180
    · exact ⟨_, by rw [if_neg c1, if_pos c2]⟩
    · exact ⟨_, by
        rw [if_neg c1, if_neg c2,
          if_pos (Or.inr hp : (goLen gs:ℤ) < 1 ∨ (goLen gs:ℤ) > 12)]⟩
  have hnone : ∀ la lo : ℚ,
      Except.toOption (Encode la lo (goLen gs : ℤ)) =
        (none : Option (List Char)) := by
    intro la lo
    obtain ⟨e, he⟩ := herr la lo
    rw [he]
    rfl
  simp [List.filterMap_cons, hnone]

end Geohash

namespace Geohash

/-- Witness for C10 at a 13-character alphabet-only string. -/
theorem C10_no_length_cap_witness :
    Neighbors (List.replicate 13 '0') = .ok [] :=
  (C10_no_length_cap (List.replicate 13 '0') (by decide) (by decide)).2.2
    (by decide)

end Geohash

namespace Geohash

/-- C8: for a fixed valid coordinate and precisions `p < q` in `[1,12]`,
the bounding box of the precision-`q` encoding has a strictly smaller
latitude span or a strictly smaller longitude span than that of the
precision-`p` encoding (in fact the latitude span always strictly
shrinks). -/
theorem C8_monotone_narrowing :
    ∀ (lat lon : ℚ) (p q : ℤ), -90 ≤ lat → lat ≤ 90 → -180 ≤ lon →
      lon ≤ 180 → 1 ≤ p → p < q → q ≤ 12 →
      ∃ (gp gq : List Char) (pa pb pc pd qa qb qc qd : ℚ),
        Encode lat lon p = .ok gp ∧ Encode lat lon q = .ok gq ∧
        BoundingBox gp = .ok (pa, pb, pc, pd) ∧
        BoundingBox gq = .ok (qa, qb, qc, qd) ∧
        (qb - qa < pb - pa ∨ qd - qc < pd - pc) := by
  intro lat lon p q h1 h2 h3 h4 h5 hpq h6
  have hq1 : 1 ≤ q := by omega
  have hp6 : p ≤ 12 := by omega
  have hep := encode_ok h1 h2 h3 h4 h5 hp6
  have heq := encode_ok h1 h2 h3 h4 hq1 h6
  have hlenp := encodeChars_length lat lon p.toNat initState
  have hlenq := encodeChars_length lat lon q.toNat initState
  have hnep : encodeChars lat lon p.toNat initState ≠ [] := by
    intro h
    rw [h] at hlenp
    simp at hlenp
    omega
  have hneq : encodeChars lat lon q.toNat initState ≠ [] := by
    intro h
    rw [h] at hlenq
    simp at hlenq
    omega
  obtain ⟨stp, -, -, hboxp, hinvp⟩ := decode_bbox_ok _ hnep
    (fun c hc => encodeChars_mem lat lon _ _ c hc)
  obtain ⟨stq, -, -, hboxq, hinvq⟩ := decode_bbox_ok _ hneq
    (fun c hc => encodeChars_mem lat lon _ _ c hc)
  refine ⟨_, _, _, _, _, _, _, _, _, _, hep, heq, hboxp, hboxq, Or.inl ?_⟩
  rw [hinvp.1, hinvq.1, hlenp, hlenq]
  have hexp : 5 * p.toNat / 2 < 5 * q.toNat / 2 := by omega
  have hpow : (2:ℚ) ^ (5 * p.toNat / 2) < 2 ^ (5 * q.toNat / 2) := by
    exact pow_lt_pow_right₀ (by norm_num) hexp
  exact div_lt_div_of_pos_left (by norm_num) (by positivity) hpow

/-- Witness for C8 at the origin with precisions 1 and 2. -/
theorem C8_monotone_narrowing_witness :
    ∃ (gp gq : List Char) (pa pb pc pd qa qb qc qd : ℚ),
      Encode 0 0 1 = .ok gp ∧ Encode 0 0 2 = .ok gq ∧
      BoundingBox gp = .ok (pa, pb, pc, pd) ∧
      BoundingBox gq = .ok (qa, qb, qc, qd) ∧
      (qb - qa < pb - pa ∨ qd - qc < pd - pc) :=
  C8_monotone_narrowing 0 0 1 2 (by norm_num) (by norm_num) (by norm_num)
    (by norm_num) (by norm_num) (by norm_num) (by norm_num)

end Geohash


namespace Geohash

/-! ### The spec's reference bit-interleaving algorithm (for C1)

These definitions follow the specification's words: produce
`precision * 5` bits alternating between longitude and latitude starting
with longitude, emitting bit 1 (and moving the lower bound up to the
midpoint) exactly when the active coordinate is strictly greater than the
midpoint of the active range; then map each consecutive group of 5 bits,
most-significant bit first, through the 32-symbol alphabet. -/

/-- One bit of the spec's reference algorithm on a single range. -/
def specBit (coord : ℚ) (r : ℚ × ℚ) : Bool × (ℚ × ℚ) :=
  let mid := (r.1 + r.2) / 2
  if coord > mid then (true, (mid, r.2)) else (false, (r.1, mid))

/-- The spec's reference bit stream: `n` bits alternating between the
longitude range (when `even` is true) and the latitude range, together
with the final ranges and flag. -/
def specRun (lat lon : ℚ) :
    Nat → (ℚ × ℚ) → (ℚ × ℚ) → Bool →
      List Bool × ((ℚ × ℚ) × (ℚ × ℚ) × Bool)
  | 0, latR, lonR, even => ([], (latR, lonR, even))
  | n + 1, latR, lonR, even =>
    if even then
      let r := specBit lon lonR
      let rest := specRun lat lon n latR r.2 false
      (r.1 :: rest.1, rest.2)
    else
      let r := specBit lat latR
      let rest := specRun lat lon n r.2 lonR true
      (r.1 :: rest.1, rest.2)

/-- The value of a bit group, most-significant bit first. -/
def bitsToNat (bs : List Bool) : Nat :=
  bs.foldl (fun acc b => 2 * acc + (if b then 1 else 0)) 0

/-- Consecutive groups of 5 bits. -/
def chunk5 : List Bool → List (List Bool)
  | b0 :: b1 :: b2 :: b3 :: b4 :: rest => [b0, b1, b2, b3, b4] :: chunk5 rest
  | _ => []

/-- The spec's reference encoding: the bit stream of `5 * p` bits from the
full ranges, grouped in fives, each group indexing the alphabet. -/
def specEncode (lat lon : ℚ) (p : Nat) : List Char :=
  (chunk5 (specRun lat lon (5 * p) (-90, 90) (-180, 180) true).1).map
    (fun g => base32.getD (bitsToNat g) ' ')

/-- The `GeoState` corresponding to a pair of spec ranges and a flag. -/
def stateOf (latR lonR : ℚ × ℚ) (even : Bool) : GeoState :=
  { latLo := latR.1, latHi := latR.2, lonLo := lonR.1, lonHi := lonR.2,
    even := even }

theorem encBit_specBit (lat lon : ℚ) (latR lonR : ℚ × ℚ) (e : Bool) :
    encBit lat lon (stateOf latR lonR e) =
      (if e then ((specBit lon lonR).1, stateOf latR (specBit lon lonR).2 false)
       else ((specBit lat latR).1, stateOf (specBit lat latR).2 lonR true)) := by
  cases e <;> simp only [encBit, specBit, stateOf, Bool.false_eq_true,
    if_false, if_true] <;> split_ifs <;> rfl

theorem specRun_succ (lat lon : ℚ) (n : Nat) (latR lonR : ℚ × ℚ) (e : Bool) :
    specRun lat lon (n + 1) latR lonR e =
      (if e then
        ((specBit lon lonR).1 ::
          (specRun lat lon n latR (specBit lon lonR).2 false).1,
         (specRun lat lon n latR (specBit lon lonR).2 false).2)
       else
        ((specBit lat latR).1 ::
          (specRun lat lon n (specBit lat latR).2 lonR true).1,
         (specRun lat lon n (specBit lat latR).2 lonR true).2)) := by
  cases e <;> rfl

end Geohash

namespace Geohash

theorem or_two_pow : ∀ (n k : Nat), (2 ^ (n + 1) * k) ||| 2 ^ n = 2 ^ (n + 1) * k + 2 ^ n
  | 0, k => by
    have h := Nat.lor_bit false k true 0
    simp only [Nat.bit, cond] at h
    simpa [Nat.mul_comm] using h
  | n + 1, k => by
    have ih := or_two_pow n k
    have h := Nat.lor_bit false (2 ^ (n + 1) * k) false (2 ^ n)
    simp only [Nat.bit, Bool.or_self, cond_false, cond_true] at h
    have e1 : 2 ^ (n + 1 + 1) * k = 2 * (2 ^ (n + 1) * k) := by ring
    have e2 : 2 ^ (n + 1) = 2 * 2 ^ n := by ring
    rw [e2, e1, h, ih]
    ring

theorem bitsToNat_aux :
    ∀ (bs : List Bool) (a : Nat),
      bs.foldl (fun acc b => 2 * acc + (if b then 1 else 0)) a =
        a * 2 ^ bs.length + bitsToNat bs
  | [], a => by simp [bitsToNat]
  | b :: bs, a => by
    have h1 := bitsToNat_aux bs (2 * a + (if b then 1 else 0))
    have h2 := bitsToNat_aux bs (if b then 1 else 0)
    have hbn : bitsToNat (b :: bs) =
        (if b then 1 else 0) * 2 ^ bs.length + bitsToNat bs := by
      unfold bitsToNat
      simp only [List.foldl]
      simpa using h2
    simp only [List.foldl, hbn, List.length_cons]
    rw [h1]
    ring

theorem bitsToNat_cons (b : Bool) (bs : List Bool) :
    bitsToNat (b :: bs) = (if b then 1 else 0) * 2 ^ bs.length + bitsToNat bs := by
  unfold bitsToNat
  simp only [List.foldl]
  simpa using bitsToNat_aux bs (if b then 1 else 0)

theorem encBitsLoop_succ (lat lon : ℚ) (n ch : Nat) (s : GeoState) :
    encBitsLoop lat lon (n + 1) ch s =
      encBitsLoop lat lon n
        (if (encBit lat lon s).1 then ch ||| (1 <<< n) else ch)
        (encBit lat lon s).2 := rfl

theorem specRun_length (lat lon : ℚ) :
    ∀ (n : Nat) (latR lonR : ℚ × ℚ) (e : Bool),
      (specRun lat lon n latR lonR e).1.length = n
  | 0, _, _, _ => rfl
  | n + 1, latR, lonR, e => by
    rw [specRun_succ]
    cases e <;> simp [specRun_length lat lon n]

theorem encBitsLoop_specRun (lat lon : ℚ) :
    ∀ (n k : Nat) (latR lonR : ℚ × ℚ) (e : Bool),
      encBitsLoop lat lon n (2 ^ n * k) (stateOf latR lonR e) =
        (2 ^ n * k + bitsToNat (specRun lat lon n latR lonR e).1,
         stateOf (specRun lat lon n latR lonR e).2.1
           (specRun lat lon n latR lonR e).2.2.1
           (specRun lat lon n latR lonR e).2.2.2)
  | 0, k, latR, lonR, e => by
    simp [encBitsLoop, specRun, bitsToNat, stateOf]
  | n + 1, k, latR, lonR, e => by
    rw [encBitsLoop_succ, encBit_specBit, specRun_succ]
    have hshift : (1 <<< n) = 2 ^ n := by simp [Nat.shiftLeft_eq]
    cases e with
    | false =>
      simp only [Bool.false_eq_true, if_false]
      cases hb : (specBit lat latR).1 with
      | false =>
        simp only [Bool.false_eq_true, if_false]
        have ih := encBitsLoop_specRun lat lon n (2 * k) (specBit lat latR).2 lonR true
        have e1 : 2 ^ (n + 1) * k = 2 ^ n * (2 * k) := by ring
        rw [e1, ih, bitsToNat_cons, specRun_length]
        simp only [Prod.mk.injEq, and_true]
        simp
        try ring
      | true =>
        simp only [if_true]
        have e1 : 2 ^ (n + 1) * k ||| 1 <<< n = 2 ^ n * (2 * k + 1) := by
          rw [hshift, or_two_pow]
          ring
        have ih := encBitsLoop_specRun lat lon n (2 * k + 1) (specBit lat latR).2 lonR true
        rw [e1, ih, bitsToNat_cons, specRun_length]
        simp only [Prod.mk.injEq, and_true]
        simp
        try ring
    | true =>
      simp only [if_true]
      cases hb : (specBit lon lonR).1 with
      | false =>
        simp only [Bool.false_eq_true, if_false]
        have ih := encBitsLoop_specRun lat lon n (2 * k) latR (specBit lon lonR).2 false
        have e1 : 2 ^ (n + 1) * k = 2 ^ n * (2 * k) := by ring
        rw [e1, ih, bitsToNat_cons, specRun_length]
        simp only [Prod.mk.injEq, and_true]
        simp
        try ring
      | true =>
        simp only [if_true]
        have e1 : 2 ^ (n + 1) * k ||| 1 <<< n = 2 ^ n * (2 * k + 1) := by
          rw [hshift, or_two_pow]
          ring
        have ih := encBitsLoop_specRun lat lon n (2 * k + 1) latR (specBit lon lonR).2 false
        rw [e1, ih, bitsToNat_cons, specRun_length]
        simp only [Prod.mk.injEq, and_true]
        simp
        try ring

end Geohash

namespace Geohash

theorem specRun_add (lat lon : ℚ) :
    ∀ (m n : Nat) (latR lonR : ℚ × ℚ) (e : Bool),
      specRun lat lon (m + n) latR lonR e =
        ((specRun lat lon m latR lonR e).1 ++
          (specRun lat lon n (specRun lat lon m latR lonR e).2.1
            (specRun lat lon m latR lonR e).2.2.1
            (specRun lat lon m latR lonR e).2.2.2).1,
         (specRun lat lon n (specRun lat lon m latR lonR e).2.1
            (specRun lat lon m latR lonR e).2.2.1
            (specRun lat lon m latR lonR e).2.2.2).2)
  | 0, n, latR, lonR, e => by simp [specRun]
  | m + 1, n, latR, lonR, e => by
    have harith : m + 1 + n = (m + n) + 1 := by omega
    rw [harith, specRun_succ, specRun_succ]
    cases e with
    | false =>
      simp only [Bool.false_eq_true, if_false]
      rw [specRun_add lat lon m n (specBit lat latR).2 lonR true]
      dsimp only
      simp [List.cons_append]
    | true =>
      simp only [if_true]
      rw [specRun_add lat lon m n latR (specBit lon lonR).2 false]
      dsimp only
      simp [List.cons_append]

theorem chunk5_cons (b0 b1 b2 b3 b4 : Bool) (rest : List Bool) :
    chunk5 (b0 :: b1 :: b2 :: b3 :: b4 :: rest) =
      [b0, b1, b2, b3, b4] :: chunk5 rest := rfl

theorem exists_five (bs : List Bool) (h : bs.length = 5) :
    ∃ b0 b1 b2 b3 b4, bs = [b0, b1, b2, b3, b4] := by
  rcases bs with _ | ⟨b0, bs⟩
  · simp at h
  rcases bs with _ | ⟨b1, bs⟩
  · simp at h
  rcases bs with _ | ⟨b2, bs⟩
  · simp at h
  rcases bs with _ | ⟨b3, bs⟩
  · simp at h
  rcases bs with _ | ⟨b4, bs⟩
  · simp at h
  rcases bs with _ | ⟨b5, bs⟩
  · exact ⟨b0, b1, b2, b3, b4, rfl⟩
  · simp at h

theorem encChar_specRun (lat lon : ℚ) (latR lonR : ℚ × ℚ) (e : Bool) :
    encBitsLoop lat lon 5 0 (stateOf latR lonR e) =
      (bitsToNat (specRun lat lon 5 latR lonR e).1,
       stateOf (specRun lat lon 5 latR lonR e).2.1
         (specRun lat lon 5 latR lonR e).2.2.1
         (specRun lat lon 5 latR lonR e).2.2.2) := by
  have h := encBitsLoop_specRun lat lon 5 0 latR lonR e
  simpa using h

theorem encodeChars_specEncode (lat lon : ℚ) :
    ∀ (p : Nat) (latR lonR : ℚ × ℚ) (e : Bool),
      encodeChars lat lon p (stateOf latR lonR e) =
        (chunk5 (specRun lat lon (5 * p) latR lonR e).1).map
          (fun g => base32.getD (bitsToNat g) ' ')
  | 0, latR, lonR, e => by
    simp [encodeChars, specRun, chunk5]
  | p + 1, latR, lonR, e => by
    have hsplit : 5 * (p + 1) = 5 + 5 * p := by ring
    rw [hsplit, specRun_add lat lon 5 (5 * p) latR lonR e]
    obtain ⟨b0, b1, b2, b3, b4, hb⟩ :=
      exists_five (specRun lat lon 5 latR lonR e).1 (specRun_length lat lon 5 latR lonR e)
    show base32.getD (encBitsLoop lat lon 5 0 (stateOf latR lonR e)).1 ' ' ::
        encodeChars lat lon p (encBitsLoop lat lon 5 0 (stateOf latR lonR e)).2 = _
    rw [encChar_specRun]
    rw [encodeChars_specEncode lat lon p]
    dsimp only
    rw [hb]
    simp only [List.cons_append, List.nil_append, chunk5_cons, List.map_cons]

end Geohash

namespace Geohash

/-- C1: on valid inputs `Encode` produces exactly the spec's reference
bit-interleaving result — `precision * 5` bits alternating longitude /
latitude starting with longitude, bit 1 (lower bound moves up) exactly
when the coordinate is strictly greater than the midpoint, each 5-bit
group (most-significant bit first) indexing the 32-symbol alphabet — and
every character of any successful encoding is in the alphabet. -/
theorem C1_encode_refines_spec :
    ∀ (lat lon : ℚ) (p : ℤ), -90 ≤ lat → lat ≤ 90 → -180 ≤ lon →
      lon ≤ 180 → 1 ≤ p → p ≤ 12 →
      Encode lat lon p = .ok (specEncode lat lon p.toNat) ∧
      ∀ gs, Encode lat lon p = .ok gs → ∀ c ∈ gs, c ∈ base32 := by
  intro lat lon p h1 h2 h3 h4 h5 h6
  have henc := encode_ok h1 h2 h3 h4 h5 h6
  have hini : initState = stateOf (-90, 90) (-180, 180) true := rfl
  constructor
  · rw [henc, hini, encodeChars_specEncode]
    rfl
  · intro gs hgs c hc
    obtain ⟨-, -, hshape⟩ := encode_ok_shape hgs
    rw [hshape] at hc
    exact encodeChars_mem lat lon _ _ c hc

/-- Witness for C1 at the origin with precision 1. -/
theorem C1_encode_refines_spec_witness :
    Encode 0 0 1 = .ok (specEncode 0 0 (1 : ℤ).toNat) ∧
    ∀ gs, Encode 0 0 1 = .ok gs → ∀ c ∈ gs, c ∈ base32 :=
  C1_encode_refines_spec 0 0 1 (by norm_num) (by norm_num) (by norm_num)
    (by norm_num) (by norm_num) (by norm_num)

end Geohash

namespace Geohash

set_option maxHeartbeats 1000000 in
theorem hav_A_bound (x1 x2 l1 l2 : ℝ)
    (hx1l : (0.038313 : ℝ) ≤ x1) (hx1h : x1 ≤ 0.038314)
    (hx2l : (0.0156513 : ℝ) ≤ x2) (hx2h : x2 ≤ 0.0156514)
    (hl1l : (0.840116 : ℝ) ≤ l1) (hl1h : l1 ≤ 0.840117)
    (hl2l : (0.916743 : ℝ) ≤ l2) (hl2h : l2 ≤ 0.916744) :
    (0.0015493 : ℝ) ≤ Real.sin x1 * Real.sin x1 +
        Real.sin x2 * Real.sin x2 * Real.cos l1 * Real.cos l2 ∧
      Real.sin x1 * Real.sin x1 +
        Real.sin x2 * Real.sin x2 * Real.cos l1 * Real.cos l2 ≤ 0.0015697 := by
  have hx1pos : (0:ℝ) < x1 := by linarith
  have hx2pos : (0:ℝ) < x2 := by linarith
  have hs1h : Real.sin x1 ≤ 0.038314 := le_trans (Real.sin_lt hx1pos).le hx1h
  have hx1cube : x1 ^ 3 ≤ (0.0000563 : ℝ) :=
    le_trans (pow_le_pow_left₀ hx1pos.le hx1h 3) (by norm_num)
  have hs1l : (0.038298 : ℝ) ≤ Real.sin x1 := by
    have h := Real.sin_gt_sub_cube hx1pos (by linarith)
    linarith
  have hs2h : Real.sin x2 ≤ 0.0156514 := le_trans (Real.sin_lt hx2pos).le hx2h
  have hx2cube : x2 ^ 3 ≤ (0.00000384 : ℝ) :=
    le_trans (pow_le_pow_left₀ hx2pos.le hx2h 3) (by norm_num)
  have hs2l : (0.015650 : ℝ) ≤ Real.sin x2 := by
    have h := Real.sin_gt_sub_cube hx2pos (by linarith)
    linarith
  have habs1 : |l1| ≤ 1 := by
    rw [abs_le]
    constructor <;> linarith
  have habs2 : |l2| ≤ 1 := by
    rw [abs_le]
    constructor <;> linarith
  have hc1b := Real.cos_bound habs1
  have hc2b := Real.cos_bound habs2
  rw [abs_le] at hc1b hc2b
  rw [abs_of_pos (by linarith : (0:ℝ) < l1)] at hc1b
  rw [abs_of_pos (by linarith : (0:ℝ) < l2)] at hc2b
  have hl1sqh : l1 ^ 2 ≤ (0.705797 : ℝ) :=
    le_trans (pow_le_pow_left₀ (by linarith) hl1h 2) (by norm_num)
  have hl1sql : (0.705794 : ℝ) ≤ l1 ^ 2 :=
    le_trans (by norm_num) (pow_le_pow_left₀ (by norm_num) hl1l 2)
  have hl1q : l1 ^ 4 ≤ (0.49815 : ℝ) :=
    le_trans (pow_le_pow_left₀ (by linarith) hl1h 4) (by norm_num)
  have hl2sqh : l2 ^ 2 ≤ (0.840420 : ℝ) :=
    le_trans (pow_le_pow_left₀ (by linarith) hl2h 2) (by norm_num)
  have hl2sql : (0.840417 : ℝ) ≤ l2 ^ 2 :=
    le_trans (by norm_num) (pow_le_pow_left₀ (by norm_num) hl2l 2)
  have hl2q : l2 ^ 4 ≤ (0.706306 : ℝ) :=
    le_trans (pow_le_pow_left₀ (by linarith) hl2h 4) (by norm_num)
  have hl1qpos : (0:ℝ) ≤ l1 ^ 4 := by positivity
  have hl2qpos : (0:ℝ) ≤ l2 ^ 4 := by positivity
  have hc1u : Real.cos l1 ≤ 0.67305 := by linarith [hc1b.2]
  have hc1l : (0.62115 : ℝ) ≤ Real.cos l1 := by linarith [hc1b.1]
  have hc2u : Real.cos l2 ≤ 0.61658 := by linarith [hc2b.2]
  have hc2l : (0.54300 : ℝ) ≤ Real.cos l2 := by linarith [hc2b.1]
  have hs1sqh : Real.sin x1 * Real.sin x1 ≤ (0.038314 : ℝ) * 0.038314 :=
    mul_le_mul hs1h hs1h (by linarith) (by norm_num)
  have hs1sql : (0.038298 : ℝ) * 0.038298 ≤ Real.sin x1 * Real.sin x1 :=
    mul_le_mul hs1l hs1l (by norm_num) (by linarith)
  have hs2sqh : Real.sin x2 * Real.sin x2 ≤ (0.0156514 : ℝ) * 0.0156514 :=
    mul_le_mul hs2h hs2h (by linarith) (by norm_num)
  have hs2sql : (0.015650 : ℝ) * 0.015650 ≤ Real.sin x2 * Real.sin x2 :=
    mul_le_mul hs2l hs2l (by norm_num) (by linarith)
  have hs2sqpos : (0:ℝ) ≤ Real.sin x2 * Real.sin x2 := by
    have : (0:ℝ) ≤ (0.015650 : ℝ) * 0.015650 := by norm_num
    linarith
  have ht1h : Real.sin x2 * Real.sin x2 * Real.cos l1 ≤
      (0.0156514 : ℝ) * 0.0156514 * 0.67305 :=
    mul_le_mul hs2sqh hc1u (by linarith) (by norm_num)
  have ht1l : (0.015650 : ℝ) * 0.015650 * 0.62115 ≤
      Real.sin x2 * Real.sin x2 * Real.cos l1 :=
    mul_le_mul hs2sql hc1l (by norm_num) hs2sqpos
  have ht1pos : (0:ℝ) ≤ Real.sin x2 * Real.sin x2 * Real.cos l1 := by
    have : (0:ℝ) ≤ (0.015650 : ℝ) * 0.015650 * 0.62115 := by norm_num
    linarith
  have ht2h : Real.sin x2 * Real.sin x2 * Real.cos l1 * Real.cos l2 ≤
      (0.0156514 : ℝ) * 0.0156514 * 0.67305 * 0.61658 :=
    mul_le_mul ht1h hc2u (by linarith) (by norm_num)
  have ht2l : (0.015650 : ℝ) * 0.015650 * 0.62115 * 0.54300 ≤
      Real.sin x2 * Real.sin x2 * Real.cos l1 * Real.cos l2 :=
    mul_le_mul ht1l hc2l (by norm_num) ht1pos
  constructor <;> linarith [hs1sqh, hs1sql, ht2h, ht2l]

end Geohash

namespace Geohash

theorem atan2_sqrt_eq_arcsin {A : ℝ} (hApos : 0 < A) (hAlt : A < 1) :
    atan2 (Real.sqrt A) (Real.sqrt (1 - A)) = Real.arcsin (Real.sqrt A) := by
  have hxpos : 0 < Real.sqrt (1 - A) := Real.sqrt_pos.mpr (by linarith)
  unfold atan2
  rw [if_pos hxpos, Real.arctan_eq_arcsin]
  congr 1
  have h1 : (Real.sqrt A / Real.sqrt (1 - A)) ^ 2 = A / (1 - A) := by
    rw [div_pow, Real.sq_sqrt hApos.le, Real.sq_sqrt (by linarith : (0:ℝ) ≤ 1 - A)]
  rw [h1]
  have hne : (1:ℝ) - A ≠ 0 := by linarith
  have hxne : Real.sqrt (1 - A) ≠ 0 := ne_of_gt hxpos
  have h2 : 1 + A / (1 - A) = (1 - A)⁻¹ := by
    field_simp
  rw [h2, Real.sqrt_inv]
  field_simp

set_option maxHeartbeats 800000 in
theorem atan2_sqrt_bound (A : ℝ) (hAl : (0.0015493 : ℝ) ≤ A)
    (hAh : A ≤ 0.0015697) :
    494 < 6371 * (2 * atan2 (Real.sqrt A) (Real.sqrt (1 - A))) ∧
    6371 * (2 * atan2 (Real.sqrt A) (Real.sqrt (1 - A))) < 514 := by
  have hApos : (0:ℝ) < A := by linarith
  have hAlt : A < 1 := by linarith
  rw [atan2_sqrt_eq_arcsin hApos hAlt]
  have hsqA_l : (0.03935 : ℝ) ≤ Real.sqrt A := by
    rw [show (0.03935 : ℝ) = Real.sqrt (0.03935 ^ 2) from
      (Real.sqrt_sq (by norm_num)).symm]
    exact Real.sqrt_le_sqrt (by nlinarith)
  have hsqA_h : Real.sqrt A ≤ 0.03963 := by
    rw [show (0.03963 : ℝ) = Real.sqrt (0.03963 ^ 2) from
      (Real.sqrt_sq (by norm_num)).symm]
    exact Real.sqrt_le_sqrt (by nlinarith)
  have hpi := Real.pi_gt_d6
  have hb1 : (0.0393 : ℝ) ≤ Real.arcsin (Real.sqrt A) := by
    have hsin : Real.sin 0.0393 ≤ Real.sqrt A :=
      le_trans (Real.sin_lt (by norm_num)).le (by linarith)
    have hmono := Real.monotone_arcsin hsin
    rwa [Real.arcsin_sin (by linarith) (by linarith)] at hmono
  have hb2 : Real.arcsin (Real.sqrt A) ≤ 0.0397 := by
    have hcube := Real.sin_gt_sub_cube
      (x := (0.0397 : ℝ)) (by norm_num) (by norm_num)
    have hsin : Real.sqrt A ≤ Real.sin 0.0397 := by nlinarith
    have hmono := Real.monotone_arcsin hsin
    rwa [Real.arcsin_sin (by linarith) (by linarith)] at hmono
  constructor <;> nlinarith [hb1, hb2]

end Geohash

namespace Geohash

set_option maxHeartbeats 800000 in
theorem hav_munich_berlin :
    494 < haversineDistance ((25236675:ℝ)/524288) ((3036195:ℝ)/262144)
        ((27538515:ℝ)/524288) ((3506355:ℝ)/262144) ∧
      haversineDistance ((25236675:ℝ)/524288) ((3036195:ℝ)/262144)
        ((27538515:ℝ)/524288) ((3506355:ℝ)/262144) < 514 := by
  have hpil := Real.pi_gt_d6
  have hpih := Real.pi_lt_d6
  have hpipos := Real.pi_pos
  have hA := hav_A_bound
    (degToRad ((27538515:ℝ)/524288 - (25236675:ℝ)/524288) / 2)
    (degToRad ((3506355:ℝ)/262144 - (3036195:ℝ)/262144) / 2)
    (degToRad ((25236675:ℝ)/524288))
    (degToRad ((27538515:ℝ)/524288))
    (by unfold degToRad; linarith)
    (by unfold degToRad; linarith)
    (by unfold degToRad; linarith)
    (by unfold degToRad; linarith)
    (by unfold degToRad; linarith)
    (by unfold degToRad; linarith)
    (by unfold degToRad; linarith)
    (by unfold degToRad; linarith)
  have h := atan2_sqrt_bound _ hA.1 hA.2
  exact h

end Geohash

namespace Geohash

set_option maxHeartbeats 800000 in
theorem decode_u281zd9z :
    Decode ['u', '2', '8', '1', 'z', 'd', '9', 'z'] =
      .ok (25236675/524288, 3036195/262144) := by
  have nu : (indexInBase32 ('u'.toNat % 256) = -1) ↔ False := iff_false_intro (by decide)
  have n2 : (indexInBase32 ('2'.toNat % 256) = -1) ↔ False := iff_false_intro (by decide)
  have n8 : (indexInBase32 ('8'.toNat % 256) = -1) ↔ False := iff_false_intro (by decide)
  have n1 : (indexInBase32 ('1'.toNat % 256) = -1) ↔ False := iff_false_intro (by decide)
  have nz : (indexInBase32 ('z'.toNat % 256) = -1) ↔ False := iff_false_intro (by decide)
  have nd : (indexInBase32 ('d'.toNat % 256) = -1) ↔ False := iff_false_intro (by decide)
  have n9 : (indexInBase32 ('9'.toNat % 256) = -1) ↔ False := iff_false_intro (by decide)
  have tu : (indexInBase32 ('u'.toNat % 256)).toNat = 26 := by decide
  have t2 : (indexInBase32 ('2'.toNat % 256)).toNat = 2 := by decide
  have t8 : (indexInBase32 ('8'.toNat % 256)).toNat = 8 := by decide
  have t1 : (indexInBase32 ('1'.toNat % 256)).toNat = 1 := by decide
  have tz : (indexInBase32 ('z'.toNat % 256)).toNat = 31 := by decide
  have td : (indexInBase32 ('d'.toNat % 256)).toNat = 12 := by decide
  have t9 : (indexInBase32 ('9'.toNat % 256)).toNat = 9 := by decide
  have e26 : ∀ s, decCharLoop 26 5 s =
      decBit false (decBit true (decBit false (decBit true (decBit true s)))) := fun _ => rfl
  have e2 : ∀ s, decCharLoop 2 5 s =
      decBit false (decBit true (decBit false (decBit false (decBit false s)))) := fun _ => rfl
  have e8 : ∀ s, decCharLoop 8 5 s =
      decBit false (decBit false (decBit false (decBit true (decBit false s)))) := fun _ => rfl
  have e1 : ∀ s, decCharLoop 1 5 s =
      decBit true (decBit false (decBit false (decBit false (decBit false s)))) := fun _ => rfl
  have e31 : ∀ s, decCharLoop 31 5 s =
      decBit true (decBit true (decBit true (decBit true (decBit true s)))) := fun _ => rfl
  have e12 : ∀ s, decCharLoop 12 5 s =
      decBit false (decBit false (decBit true (decBit true (decBit false s)))) := fun _ => rfl
  have e9 : ∀ s, decCharLoop 9 5 s =
      decBit true (decBit false (decBit false (decBit true (decBit false s)))) := fun _ => rfl
  simp only [Decode, scanGeohash, nu, n2, n8, n1, nz, nd, n9,
    tu, t2, t8, t1, tz, td, t9, if_false, e26, e2, e8, e1, e31, e12, e9]
  norm_num [decBit, initState]
  exact fun hcon => absurd hcon (by simp)

set_option maxHeartbeats 800000 in
theorem decode_u33db3gz :
    Decode ['u', '3', '3', 'd', 'b', '3', 'g', 'z'] =
      .ok (27538515/524288, 3506355/262144) := by
  have nu : (indexInBase32 ('u'.toNat % 256) = -1) ↔ False := iff_false_intro (by decide)
  have n3 : (indexInBase32 ('3'.toNat % 256) = -1) ↔ False := iff_false_intro (by decide)
  have nd : (indexInBase32 ('d'.toNat % 256) = -1) ↔ False := iff_false_intro (by decide)
  have nb : (indexInBase32 ('b'.toNat % 256) = -1) ↔ False := iff_false_intro (by decide)
  have ng : (indexInBase32 ('g'.toNat % 256) = -1) ↔ False := iff_false_intro (by decide)
  have nz : (indexInBase32 ('z'.toNat % 256) = -1) ↔ False := iff_false_intro (by decide)
  have tu : (indexInBase32 ('u'.toNat % 256)).toNat = 26 := by decide
  have t3 : (indexInBase32 ('3'.toNat % 256)).toNat = 3 := by decide
  have td : (indexInBase32 ('d'.toNat % 256)).toNat = 12 := by decide
  have tb : (indexInBase32 ('b'.toNat % 256)).toNat = 10 := by decide
  have tg : (indexInBase32 ('g'.toNat % 256)).toNat = 15 := by decide
  have tz : (indexInBase32 ('z'.toNat % 256)).toNat = 31 := by decide
  have e26 : ∀ s, decCharLoop 26 5 s =
      decBit false (decBit true (decBit false (decBit true (decBit true s)))) := fun _ => rfl
  have e3 : ∀ s, decCharLoop 3 5 s =
      decBit true (decBit true (decBit false (decBit false (decBit false s)))) := fun _ => rfl
  have e12 : ∀ s, decCharLoop 12 5 s =
      decBit false (decBit false (decBit true (decBit true (decBit false s)))) := fun _ => rfl
  have e10 : ∀ s, decCharLoop 10 5 s =
      decBit false (decBit true (decBit false (decBit true (decBit false s)))) := fun _ => rfl
  have e15 : ∀ s, decCharLoop 15 5 s =
      decBit true (decBit true (decBit true (decBit true (decBit false s)))) := fun _ => rfl
  have e31 : ∀ s, decCharLoop 31 5 s =
      decBit true (decBit true (decBit true (decBit true (decBit true s)))) := fun _ => rfl
  simp only [Decode, scanGeohash, nu, n3, nd, nb, ng, nz,
    tu, t3, td, tb, tg, tz, if_false, e26, e3, e12, e10, e15, e31]
  norm_num [decBit, initState]
  exact fun hcon => absurd hcon (by simp)

end Geohash

namespace Geohash

set_option maxHeartbeats 1000000 in
theorem encode_munich :
    Encode (481351/10000) (115820/10000) 8 =
      .ok ['u', '2', '8', '1', 'z', 'd', '9', 'z'] := by
  have s4 : (1:Nat) <<< 4 = 16 := by decide
  have s3 : (1:Nat) <<< 3 = 8 := by decide
  have s2 : (1:Nat) <<< 2 = 4 := by decide
  have s1 : (1:Nat) <<< 1 = 2 := by decide
  have s0 : (1:Nat) <<< 0 = 1 := by decide
  have o1 : (16:Nat) ||| 8 = 24 := by decide
  have o2 : (24:Nat) ||| 2 = 26 := by decide
  have o3 : (24:Nat) ||| 4 = 28 := by decide
  have o4 : (28:Nat) ||| 2 = 30 := by decide
  have o5 : (30:Nat) ||| 1 = 31 := by decide
  have o6 : (8:Nat) ||| 4 = 12 := by decide
  have o7 : (8:Nat) ||| 1 = 9 := by decide
  have gu : (base32[(26:Nat)]?).getD ' ' = 'u' := by decide
  have g2 : (base32[(2:Nat)]?).getD ' ' = '2' := by decide
  have g8 : (base32[(8:Nat)]?).getD ' ' = '8' := by decide
  have g1 : (base32[(1:Nat)]?).getD ' ' = '1' := by decide
  have gz : (base32[(31:Nat)]?).getD ' ' = 'z' := by decide
  have gd : (base32[(12:Nat)]?).getD ' ' = 'd' := by decide
  have g9 : (base32[(9:Nat)]?).getD ' ' = '9' := by decide
  norm_num [Encode, encodeChars, encBitsLoop, encBit, initState,
    s4, s3, s2, s1, s0, o1, o2, o3, o4, o5, o6, o7,
    gu, g2, g8, g1, gz, gd, g9]

/-- C7 counterexample: the spec's known vector is wrong against the code.
`Encode(48.1351, 11.5820, 8)` produces the cell `"u281zd9z"`, not the
claimed `"u0qj5v2k"` (which is the cell of a different point). -/
theorem C7_known_vector_counterexample :
    Encode (481351/10000) (115820/10000) 8 =
      .ok ['u', '2', '8', '1', 'z', 'd', '9', 'z'] ∧
    (['u', '2', '8', '1', 'z', 'd', '9', 'z'] : List Char) ≠
      ['u', '0', 'q', 'j', '5', 'v', '2', 'k'] :=
  ⟨encode_munich, by decide⟩

/-- C7 as amended: `Encode(48.1351, 11.5820, 8)` returns exactly
`"u281zd9z"`, and the distance between that cell and `"u33db3gz"` is
within 10 km of 504 km. -/
theorem C7_known_vector_amended :
    Encode (481351/10000) (115820/10000) 8 =
      .ok ['u', '2', '8', '1', 'z', 'd', '9', 'z'] ∧
    ∃ d, Distance ['u', '2', '8', '1', 'z', 'd', '9', 'z']
        ['u', '3', '3', 'd', 'b', '3', 'g', 'z'] = .ok d ∧
      494 < d ∧ d < 514 := by
  have hdist : Distance ['u', '2', '8', '1', 'z', 'd', '9', 'z']
      ['u', '3', '3', 'd', 'b', '3', 'g', 'z'] =
        .ok (haversineDistance ((25236675/524288 : ℚ) : ℝ)
          ((3036195/262144 : ℚ) : ℝ) ((27538515/524288 : ℚ) : ℝ)
          ((3506355/262144 : ℚ) : ℝ)) := by
    simp [Distance, decode_u281zd9z, decode_u33db3gz]
  push_cast at hdist
  refine ⟨encode_munich, _, hdist, ?_, ?_⟩
  · exact hav_munich_berlin.1
  · exact hav_munich_berlin.2

end Geohash
